import Mathlib

/-!
Verification of the jupyterhpc session bootstrapper (src/jupyterhpc.py).

Shallow embedding: Python strings are modelled as lists of characters
(abbreviated Str); the subprocess layer is modelled as an oracle
(a World function from an argv list to an exit code, stdout and stderr);
environment variables are an association list; functions that raise are
modelled with Except.  The regular expressions of the source are small
enough that they are embedded as deterministic recursive-descent parsers
whose backtracking behaviour coincides with the Python engine on these
patterns (each bounded digit run and the word run are followed by a
character that cannot extend them, so greedy matching never needs to
backtrack into a run).
-/

abbrev Str := List Char

/-- Convert a Lean string literal to the character-list representation. -/
def str (s : String) : Str := s.toList

/-- Strip a literal from the front of a text, returning the remainder
(models matching a sequence of literal characters of a regex). -/
def stripLit : Str → Str → Option Str
  | [], cs => some cs
  | _ :: _, [] => none
  | l :: ls, c :: cs => if c = l then stripLit ls cs else none

/-- Longest run of characters satisfying p, together with the remainder
(models a greedy quantified character class). -/
def takeRun (p : Char → Bool) : Str → Str × Str
  | [] => ([], [])
  | c :: cs =>
    if p c then
      let (t, r) := takeRun p cs
      (c :: t, r)
    else ([], c :: cs)

/-- Python substring containment, the operator form used as, for example,
the test of the string FAILED inside accounting output. -/
def containsSub (n : Str) : Str → Bool
  | [] => n.isEmpty
  | c :: h => (stripLit n (c :: h)).isSome || containsSub n h

/-- Python str.strip: remove whitespace from both ends, as performed on
every decoded subprocess stream in run. -/
def strip (s : Str) : Str :=
  ((s.dropWhile Char.isWhitespace).reverse.dropWhile Char.isWhitespace).reverse

/-- Errors raised by the program: the missing-environment-variable
RuntimeError of get_var, and the RuntimeError(outs) raises elsewhere. -/
inductive PyErr where
  | missingVar (v : Str)
  | runtimeErr (msg : Str)
deriving DecidableEq

/-- The process environment, as an association list. -/
abbrev Env := List (Str × Str)

/-- Result of one subprocess execution: returncode, raw stdout, raw stderr. -/
structure ProcResult where
  returncode : Int
  stdout : Str
  stderr : Str

/-- The subprocess oracle: what the operating system answers for a given
argv list. -/
abbrev World := List Str → ProcResult

/-- Membership test plus lookup for os.environ. -/
def lookupEnv : Env → Str → Option Str
  | [], _ => none
  | (k, v) :: rest, var => if k = var then some v else lookupEnv rest var

/-- Embeds get_var (src/jupyterhpc.py lines 27-34): return the variable if
present, else the default if the default is truthy (a non-empty string),
else raise.  Note the source tests the default for truthiness (elif
default:), not for being supplied. -/
def get_var (env : Env) (var : Str) (default : Option Str) : Except PyErr Str :=
  match lookupEnv env var with
  | some v => .ok v
  | none =>
    match default with
    | some d => if d = [] then .error (.missingVar var) else .ok d
    | none => .error (.missingVar var)

/-- Outcome of run: the returned triple (or the exception raised by
get_var), the argv lists actually executed, and the diagnostic lines
printed. -/
structure RunOut where
  result : Except PyErr (Int × Str × Str)
  executed : List (List Str)
  printed : List Str

/-- Embeds run (src/jupyterhpc.py lines 37-53): resolve CLUSTER first,
wrap the argv with the ssh invocation unless localFlag, execute, print
stderr when the exit code is non-zero, and return the triple of exit
code and stripped streams.  The debug-echo branch, which only prints the
command, is omitted. -/
def run (env : Env) (w : World) (cmd_list : List Str) (localFlag : Bool) : RunOut :=
  match get_var env (str "CLUSTER") none with
  | .error e => ⟨.error e, [], []⟩
  | .ok cluster =>
    let cmd := if localFlag then cmd_list else str "ssh" :: cluster :: cmd_list
    let p := w cmd
    ⟨.ok (p.returncode, strip p.stdout, strip p.stderr),
     [cmd],
     if p.returncode ≠ 0 then [strip p.stderr] else []⟩

/-- Embeds send_job_script (lines 74-77): scp the script to the cluster
staging path with a local run call; the result of run is discarded.
The pair also reports which argv lists were executed. -/
def send_job_script (env : Env) (w : World) (script_path : Str) :
    Except PyErr Unit × List (List Str) :=
  match get_var env (str "CLUSTER") none with
  | .error e => (.error e, [])
  | .ok cluster =>
    let command := [str "scp", script_path, cluster ++ str ":/tmp/"]
    let r := run env w command true
    match r.result with
    | .error e => (.error e, r.executed)
    | .ok _ => (.ok (), r.executed)

/-- Embeds the job-id extraction of launch_job: re.match of the pattern
Submitted batch job followed by a captured digit run, anchored at the
start of the string; the capture is the maximal digit run. -/
def parseJobId (outs : Str) : Option Str :=
  match stripLit (str "Submitted batch job ") outs with
  | none => none
  | some rest =>
    let d := (takeRun Char.isDigit rest).1
    if d = [] then none else some d

/-- Embeds launch_job (lines 96-108): sbatch the staged script remotely;
on exit code zero and a matching stdout return the captured job id,
otherwise raise RuntimeError carrying the stdout. -/
def launch_job (env : Env) (w : World) (script_name : Str) : Except PyErr Str :=
  match (run env w [str "sbatch", str "/tmp/" ++ script_name] false).result with
  | .error e => .error e
  | .ok (ret, outs, _err) =>
    if ret = 0 then
      match parseJobId outs with
      | some jid => .ok jid
      | none => .error (.runtimeErr outs)
    else .error (.runtimeErr outs)

/-- Embeds check_jobfailure (lines 111-118): query accounting with sacct
and report whether the string FAILED occurs in the stdout; the exit code
of sacct is ignored by the source. -/
def check_jobfailure (env : Env) (w : World) (job_id : Str) : Except PyErr Bool :=
  match (run env w [str "sacct", str "-j", job_id, str "-n"] false).result with
  | .error e => .error e
  | .ok (_ret, outs, _err) => .ok (containsSub (str "FAILED") outs)

/-- Embeds delete_job (lines 131-141): scancel the job; raise on a
non-zero exit code. -/
def delete_job (env : Env) (w : World) (job_id : Str) : Except PyErr Unit :=
  match (run env w [str "scancel", job_id] false).result with
  | .error e => .error e
  | .ok (ret, outs, _err) => if ret = 0 then .ok () else .error (.runtimeErr outs)

/-- Embeds get_node (lines 121-128): squeue for the allocated node name;
raise on a non-zero exit code. -/
def get_node (env : Env) (w : World) (job_id : Str) : Except PyErr Str :=
  match (run env w [str "squeue", str "-j", job_id, str "-h", str "--format", str "%N"] false).result with
  | .error e => .error e
  | .ok (ret, outs, _err) => if ret = 0 then .ok (strip outs) else .error (.runtimeErr outs)

/-- The three captured fields of the connection URL: the four dotted
quads of the host address, the port digits, and the token characters. -/
structure UrlParts where
  q1 : Str
  q2 : Str
  q3 : Str
  q4 : Str
  port : Str
  token : Str
deriving DecidableEq

/-- Python word character for the token run: the regex class of
alphanumerics and underscore (ASCII, as produced by the notebook). -/
def isWordChar (c : Char) : Bool := c.isAlphanum || c = '_'

/-- Digit-run check: all digits with a length between lo and hi, exactly
the condition under which a bounded digit quantifier followed by a
non-digit literal matches. -/
def NumOK (lo hi : Nat) (d : Str) : Prop :=
  (∀ ch ∈ d, ch.isDigit = true) ∧ lo ≤ d.length ∧ d.length ≤ hi

instance (lo hi : Nat) (d : Str) : Decidable (NumOK lo hi d) := by
  unfold NumOK; infer_instance

/-- Well-formedness of the captured fields, exactly the constraints the
URL regex places on them: 1-3 digit quads, a 2-4 digit port, and a
non-empty word-character token. -/
def WellFormed (u : UrlParts) : Prop :=
  NumOK 1 3 u.q1 ∧ NumOK 1 3 u.q2 ∧ NumOK 1 3 u.q3 ∧ NumOK 1 3 u.q4 ∧
  NumOK 2 4 u.port ∧ u.token ≠ [] ∧ (∀ ch ∈ u.token, isWordChar ch = true)

instance (u : UrlParts) : Decidable (WellFormed u) := by
  unfold WellFormed; infer_instance

/-- The dotted host address as it appears in the URL. -/
def dotted (u : UrlParts) : Str :=
  u.q1 ++ '.' :: u.q2 ++ '.' :: u.q3 ++ '.' :: u.q4

/-- The full URL text the regex group captures. -/
def render (u : UrlParts) : Str :=
  str "http://" ++ dotted u ++ ':' :: u.port ++ str "/?token=" ++ u.token

/-- Parse a bounded digit run followed by a literal separator: the
matching discipline of a bounded digit quantifier followed by a
non-digit literal in the URL regex. -/
def parseNum (lo hi : Nat) (sep : Char) (cs : Str) : Option (Str × Str) :=
  let (d, r) := takeRun Char.isDigit cs
  match r with
  | c :: r2 => if c = sep ∧ lo ≤ d.length ∧ d.length ≤ hi then some (d, r2) else none
  | [] => none

/-- Match of the URL pattern at the start of a text, returning the
captured fields and the remainder of the text.  This is the body shared
by the search regex of get_jupyter_url (lines 156-158) and the anchored
match of main (lines 191-193). -/
def parseUrlCore (cs : Str) : Option (UrlParts × Str) :=
  match stripLit (str "http://") cs with
  | none => none
  | some r0 =>
    match parseNum 1 3 '.' r0 with
    | none => none
    | some (a, r1) =>
      match parseNum 1 3 '.' r1 with
      | none => none
      | some (b, r2) =>
        match parseNum 1 3 '.' r2 with
        | none => none
        | some (c, r3) =>
          match parseNum 1 3 ':' r3 with
          | none => none
          | some (d, r4) =>
            match parseNum 2 4 '/' r4 with
            | none => none
            | some (pt, r5) =>
              match stripLit (str "?token=") r5 with
              | none => none
              | some r6 =>
                match takeRun isWordChar r6 with
                | (t, r7) =>
                  if t = [] then none else some (⟨a, b, c, d, pt, t⟩, r7)

/-- Embeds the anchored re.match of main (lines 191-193): the whole
string must be the URL, with a single trailing newline tolerated by the
end anchor; groups are the dotted host, the port and the token. -/
def parseUrlExact (s : Str) : Option (Str × Str × Str) :=
  match parseUrlCore s with
  | some (u, rest) =>
    if rest = [] ∨ rest = ['\n'] then some (dotted u, u.port, u.token) else none
  | none => none

/-- Latest start position inside one line at which the URL pattern
matches: the greedy leading dot-star of the search regex commits the
group to the last viable start of the attempt line. -/
def lastMatch : Str → Option UrlParts
  | [] => none
  | c :: cs =>
    match lastMatch cs with
    | some u => some u
    | none => (parseUrlCore (c :: cs)).map (fun x => x.1)

/-- Split on newline characters, as the dot of the search regex does not
cross newlines; Python scans attempt positions left to right, so the
first line containing a match wins. -/
def splitNl : Str → List Str
  | [] => [[]]
  | c :: cs =>
    match splitNl cs with
    | [] => [[]]
    | l :: ls => if c = '\n' then [] :: l :: ls else (c :: l) :: ls

/-- Join lines back with newlines (specification device for splitNl). -/
def joinNl : List Str → Str
  | [] => []
  | l :: ls =>
    l ++ (match ls with
          | [] => ([] : Str)
          | _ :: _ => '\n' :: joinNl ls)

/-- First line that contains a match, searched in order. -/
def firstLineMatch : List Str → Option UrlParts
  | [] => none
  | l :: ls =>
    match lastMatch l with
    | some u => some u
    | none => firstLineMatch ls

/-- Embeds re.search of the dot-star-wrapped URL pattern (lines 156-158):
the group captured is the last viable match of the first line containing
one. -/
def searchUrl (cs : Str) : Option UrlParts :=
  firstLineMatch (splitNl cs)

/-- The pure scanning part of get_jupyter_url applied to the cat output
(lines 153-164): short-circuit when the text lacks the token substring,
otherwise search for the URL; the second component records whether the
regex search was attempted. -/
def scanJupyterOut (outs : Str) : Str × Bool :=
  if containsSub (str "token") outs = false then ([], false)
  else
    match searchUrl outs with
    | none => ([], true)
    | some u => (render u, true)

/-- The error-log path convention of get_jupyter_url (lines 145-146). -/
def error_file (job_id : Str) : Str :=
  str ".jupyterhpc/jupyterhpc-" ++ job_id ++ str ".error"

/-- Embeds get_jupyter_url (lines 144-164): cat the error log remotely
and scan the output; a failing cat only prints a diagnostic (the source
writes Job has not started) and falls through to the scan of the empty
stdout, so unreadability is reported as the not-ready empty string. -/
def get_jupyter_url (env : Env) (w : World) (job_id : Str) : Except PyErr Str :=
  match (run env w [str "cat", error_file job_id] false).result with
  | .error e => .error e
  | .ok (_ret, outs, _err) => .ok (scanJupyterOut outs).1

/-- Outcome of the polling phase of main (lines 174-189). -/
inductive PollResult where
  | ready (url : Str)
  | failed
  | raised (e : PyErr)
  | running
deriving DecidableEq

/-- The scheduler-polling checks of one loop iteration, in evaluation
order: the readiness check (cat of the error log) and the failure check
(sacct accounting query). -/
inductive PollEvent where
  | readiness (iter : Nat)
  | failure (iter : Nat)
deriving DecidableEq

/-- Embeds the polling loop of main (lines 174-189), supplied with a
per-iteration subprocess oracle and fuel: each iteration evaluates the
readiness check first, then the failure check; a FAILED accounting
record exits the loop as failed (the source exits with status 1) even
when the same iteration produced a URL; otherwise a non-empty URL exits
the loop as ready; otherwise the loop continues.  The event list records
every scheduler check performed, in order. -/
def pollLoop (env : Env) (W : Nat → World) (job_id : Str) :
    Nat → Nat → PollResult × List PollEvent
  | _, 0 => (.running, [])
  | k, fuel + 1 =>
    match get_jupyter_url env (W k) job_id with
    | .error e => (.raised e, [.readiness k])
    | .ok url =>
      match check_jobfailure env (W k) job_id with
      | .error e => (.raised e, [.readiness k, .failure k])
      | .ok true => (.failed, [.readiness k, .failure k])
      | .ok false =>
        if url = [] then
          let (r, evs) := pollLoop env W job_id (k + 1) fuel
          (r, .readiness k :: .failure k :: evs)
        else (.ready url, [.readiness k, .failure k])

/-- The process exit status main produces from the polling phase: the
failed branch calls exit(1) (line 189). -/
def pollExitCode : PollResult → Option Nat
  | .failed => some 1
  | _ => none

/-- Events of m non-terminal iterations starting at iteration k. -/
def stepEvents (k : Nat) : Nat → List PollEvent
  | 0 => []
  | m + 1 => .readiness k :: .failure k :: stepEvents (k + 1) m

/-- Where a KeyboardInterrupt can arrive in main after submission. -/
inductive InterruptPoint where
  | duringPolling
  | betweenPollAndWait
  | duringWait
deriving DecidableEq

/-- Cleanup actions the source can perform on cancellation. -/
inductive CleanupAction where
  | scancel
  | terminateTunnel
deriving DecidableEq

/-- Embeds the cancellation handling of main (lines 210-215): the only
try block encloses ssh_t.wait(), and its KeyboardInterrupt handler calls
delete_job (one scancel) and nothing else; an interrupt anywhere else
after submission, in particular inside the polling loop, propagates and
terminates the program with no cleanup, and no code path terminates the
tunnel subprocess. -/
def cleanupOnInterrupt : InterruptPoint → List CleanupAction
  | .duringPolling => []
  | .betweenPollAndWait => []
  | .duringWait => [.scancel]

/-! Helper lemmas. -/

theorem except_error_ne_ok {ε α : Type} (e : ε) (a : α) :
    (Except.error e : Except ε α) ≠ .ok a :=
  fun h => Except.noConfusion h

theorem stripLit_self_append (l : Str) : ∀ r, stripLit l (l ++ r) = some r := by
  induction l with
  | nil => intro r; rfl
  | cons c cs ih => intro r; simp [stripLit, ih r]

theorem takeRun_append_of (p : Char → Bool) (t r : Str)
    (ht : ∀ ch ∈ t, p ch = true)
    (hr : ∀ ch, r.head? = some ch → p ch = false) :
    takeRun p (t ++ r) = (t, r) := by
  induction t with
  | nil =>
    cases r with
    | nil => rfl
    | cons c cs => simp [takeRun, hr c rfl]
  | cons c cs ih =>
    have ih2 := ih (fun ch h => ht ch (List.mem_cons_of_mem c h))
    simp [takeRun, ht c (List.mem_cons_self c cs), ih2]

theorem parseJobId_eq (N rest : Str) (hne : N ≠ [])
    (hdig : ∀ ch ∈ N, ch.isDigit = true)
    (hrest : ∀ ch, rest.head? = some ch → ch.isDigit = false) :
    parseJobId (str "Submitted batch job " ++ (N ++ rest)) = some N := by
  unfold parseJobId
  rw [stripLit_self_append]
  simp [takeRun_append_of Char.isDigit N rest hdig hrest, hne]

/-- Claim C6, counterexample: with the variable absent and the empty
string supplied as default, get_var raises the missing-variable error
instead of returning the empty default, because the source tests the
default for truthiness (elif default:) rather than for being supplied. -/
theorem get_var_empty_default_cex :
    get_var [] (str "CLUSTER") (some []) = .error (.missingVar (str "CLUSTER")) ∧
    get_var [] (str "CLUSTER") (some []) ≠ .ok [] := by
  refine ⟨rfl, ?_⟩
  intro h
  exact Except.noConfusion h

/-- Claim C6, amended: get_var fails with the missing-variable error if
and only if the variable is absent from the environment and the default
is either not supplied or is the empty (falsy) string; a present
variable is returned even when its value is empty, and a non-empty
default is honored. -/
theorem get_var_error_iff (env : Env) (var : Str) (default : Option Str) :
    (∃ e, get_var env var default = .error e) ↔
      (lookupEnv env var = none ∧ (default = none ∨ default = some [])) := by
  unfold get_var
  cases h : lookupEnv env var with
  | some v => simp
  | none =>
    cases default with
    | none => simp
    | some d =>
      by_cases hd : d = [] <;> simp [hd]

/-- Claim C7: run resolves CLUSTER, wraps the argv with the ssh
invocation targeting the cluster host unless the call is local, never
raises on a non-zero exit code but returns the triple of exit code and
stripped stdout and stderr, and surfaces the stderr to diagnostic output
exactly when the exit code is non-zero. -/
theorem run_never_raises (env : Env) (w : World) (cmd : List Str) (localFlag : Bool)
    (c : Str) (hc : lookupEnv env (str "CLUSTER") = some c) :
    (run env w cmd localFlag).result =
      .ok ((w (if localFlag then cmd else str "ssh" :: c :: cmd)).returncode,
           strip (w (if localFlag then cmd else str "ssh" :: c :: cmd)).stdout,
           strip (w (if localFlag then cmd else str "ssh" :: c :: cmd)).stderr) ∧
    (run env w cmd localFlag).executed =
      [if localFlag then cmd else str "ssh" :: c :: cmd] ∧
    ((w (if localFlag then cmd else str "ssh" :: c :: cmd)).returncode ≠ 0 →
      (run env w cmd localFlag).printed =
        [strip (w (if localFlag then cmd else str "ssh" :: c :: cmd)).stderr]) ∧
    ((w (if localFlag then cmd else str "ssh" :: c :: cmd)).returncode = 0 →
      (run env w cmd localFlag).printed = []) := by
  unfold run get_var
  rw [hc]
  refine ⟨rfl, rfl, ?_, ?_⟩ <;> intro h <;> simp [h]

/-- Claim C7, witness at a failing remote command. -/
theorem run_never_raises_witness :
    (run [(str "CLUSTER", str "hpc1")]
        (fun _ => ⟨1, str " out ", str "boom "⟩) [str "ls"] false).result =
      .ok (1, str "out", str "boom") ∧
    (run [(str "CLUSTER", str "hpc1")]
        (fun _ => ⟨1, str " out ", str "boom "⟩) [str "ls"] false).executed =
      [[str "ssh", str "hpc1", str "ls"]] ∧
    (run [(str "CLUSTER", str "hpc1")]
        (fun _ => ⟨1, str " out ", str "boom "⟩) [str "ls"] false).printed =
      [str "boom"] := by
  have h := run_never_raises [(str "CLUSTER", str "hpc1")]
    (fun _ => ⟨1, str " out ", str "boom "⟩) [str "ls"] false (str "hpc1") rfl
  exact ⟨h.1, h.2.1, h.2.2.1 (by decide)⟩

/-- Claim C9: every call to run, local ones included, resolves CLUSTER
before touching the subprocess layer, so with CLUSTER unset run raises
the missing-variable error and executes nothing, and in particular the
local scp of send_job_script fails the same way with nothing executed. -/
theorem cluster_required_for_all_commands (env : Env) (w : World) (cmd : List Str)
    (localFlag : Bool) (sp : Str) (h : lookupEnv env (str "CLUSTER") = none) :
    (run env w cmd localFlag).result = .error (.missingVar (str "CLUSTER")) ∧
    (run env w cmd localFlag).executed = [] ∧
    (send_job_script env w sp).1 = .error (.missingVar (str "CLUSTER")) ∧
    (send_job_script env w sp).2 = [] := by
  unfold run send_job_script get_var
  rw [h]
  exact ⟨rfl, rfl, rfl, rfl⟩

/-- Claim C9, witness: with an environment that lacks CLUSTER, both run
with localFlag true and send_job_script fail before executing. -/
theorem cluster_required_witness :
    (run [(str "PYTHON_VENV", str "/v")] (fun _ => ⟨0, [], []⟩) [str "ls"] true).result =
      .error (.missingVar (str "CLUSTER")) ∧
    (run [(str "PYTHON_VENV", str "/v")] (fun _ => ⟨0, [], []⟩) [str "ls"] true).executed = [] ∧
    (send_job_script [(str "PYTHON_VENV", str "/v")] (fun _ => ⟨0, [], []⟩) (str "/tmp/x")).1 =
      .error (.missingVar (str "CLUSTER")) ∧
    (send_job_script [(str "PYTHON_VENV", str "/v")] (fun _ => ⟨0, [], []⟩) (str "/tmp/x")).2 = [] := by
  have h := cluster_required_for_all_commands [(str "PYTHON_VENV", str "/v")]
    (fun _ => ⟨0, [], []⟩) [str "ls"] true (str "/tmp/x") rfl
  exact h

/-- Claim C3, counterexample: a zero-exit submission whose stdout merely
contains the line Submitted batch job 42 on its second line makes
launch_job raise (re.match anchors at the start of the string), instead
of returning the job id 42 as the claim states. -/
theorem launch_job_contains_line_cex :
    launch_job [(str "CLUSTER", str "hpc1")]
        (fun _ => ⟨0, str "sbatch: warning\nSubmitted batch job 42", []⟩)
        (str "job.sh") =
      .error (.runtimeErr (str "sbatch: warning\nSubmitted batch job 42")) ∧
    containsSub (str "Submitted batch job 42")
        (str "sbatch: warning\nSubmitted batch job 42") = true := by
  exact ⟨rfl, by decide⟩

/-- Claim C3, amended: when the submission command exits zero and its
stripped stdout begins with Submitted batch job N for a maximal digit
run N, launch_job returns the string N exactly (multi-digit included);
when the command exits non-zero, or the pattern does not match at the
start of the stdout, launch_job fails with an error carrying the stdout
and returns no job id (so polling never begins). -/
theorem launch_job_spec (env : Env) (w : World) (sname c : Str)
    (hc : lookupEnv env (str "CLUSTER") = some c) :
    (∀ N rest,
      (w (str "ssh" :: c :: [str "sbatch", str "/tmp/" ++ sname])).returncode = 0 →
      strip (w (str "ssh" :: c :: [str "sbatch", str "/tmp/" ++ sname])).stdout =
        str "Submitted batch job " ++ N ++ rest →
      N ≠ [] → (∀ ch ∈ N, ch.isDigit = true) →
      (∀ ch, rest.head? = some ch → ch.isDigit = false) →
      launch_job env w sname = .ok N) ∧
    ((w (str "ssh" :: c :: [str "sbatch", str "/tmp/" ++ sname])).returncode ≠ 0 →
      launch_job env w sname =
        .error (.runtimeErr (strip (w (str "ssh" :: c :: [str "sbatch", str "/tmp/" ++ sname])).stdout))) ∧
    ((w (str "ssh" :: c :: [str "sbatch", str "/tmp/" ++ sname])).returncode = 0 →
      parseJobId (strip (w (str "ssh" :: c :: [str "sbatch", str "/tmp/" ++ sname])).stdout) = none →
      launch_job env w sname =
        .error (.runtimeErr (strip (w (str "ssh" :: c :: [str "sbatch", str "/tmp/" ++ sname])).stdout))) := by
  have hrun := run_never_raises env w [str "sbatch", str "/tmp/" ++ sname] false c hc
  refine ⟨?_, ?_, ?_⟩
  · intro N rest h0 hout hne hdig hrest
    simp [launch_job, hrun.1, h0, hout, parseJobId_eq N rest hne hdig hrest]
  · intro h0
    simp [launch_job, hrun.1, h0]
  · intro h0 hnone
    simp [launch_job, hrun.1, h0, hnone]

/-- Claim C4, counterexample: the claim asserts that an interrupt after
submission always produces exactly one cancel-job invocation, and one
tunnel-close when a tunnel is open; but during polling no handler is
installed, so no scancel happens, and the handler around the tunnel wait
never terminates the tunnel process. -/
theorem cleanup_claim_cex :
    (cleanupOnInterrupt .duringPolling).count .scancel = 0 ∧
    (cleanupOnInterrupt .duringWait).count .terminateTunnel = 0 := by
  decide

/-- Claim C4, amended: only an interrupt arriving while main waits on the
tunnel process triggers cleanup, namely exactly one cancel-job
invocation and no tunnel-close invocation; an interrupt during polling
or between the polling loop and the wait triggers no cleanup action. -/
theorem cleanup_actions_spec :
    cleanupOnInterrupt .duringPolling = [] ∧
    cleanupOnInterrupt .betweenPollAndWait = [] ∧
    cleanupOnInterrupt .duringWait = [.scancel] ∧
    (cleanupOnInterrupt .duringWait).count .scancel = 1 ∧
    (cleanupOnInterrupt .duringWait).count .terminateTunnel = 0 := by
  decide

/-- Claim C3 (amended), witness: the scenario of the specification, a
zero-exit submission whose stdout is Submitted batch job 4821, yields
the job id 4821 exactly. -/
theorem launch_job_spec_witness :
    launch_job [(str "CLUSTER", str "hpc1")]
        (fun _ => ⟨0, str "Submitted batch job 4821", []⟩) (str "job.sh") =
      .ok (str "4821") := by
  exact (launch_job_spec [(str "CLUSTER", str "hpc1")]
      (fun _ => ⟨0, str "Submitted batch job 4821", []⟩) (str "job.sh") (str "hpc1") rfl).1
      (str "4821") [] rfl rfl (by decide) (by decide) (by intro ch h; simp at h)

/-! Soundness and computation lemmas for the URL parser. -/

theorem takeRun_sound (p : Char → Bool) : ∀ cs t r, takeRun p cs = (t, r) →
    cs = t ++ r ∧ (∀ ch ∈ t, p ch = true) ∧ (∀ ch, r.head? = some ch → p ch = false) := by
  intro cs
  induction cs with
  | nil =>
    intro t r h
    simp only [takeRun, Prod.mk.injEq] at h
    obtain ⟨h1, h2⟩ := h
    subst h1; subst h2
    simp
  | cons c cs ih =>
    intro t r h
    rcases htr : takeRun p cs with ⟨t2, r2⟩
    by_cases hc : p c
    · have h2 : (c :: t2, r2) = (t, r) := by rw [← h]; simp [takeRun, hc, htr]
      injection h2 with ha hb
      subst ha; subst hb
      obtain ⟨e1, e2, e3⟩ := ih t2 r2 htr
      refine ⟨by simp [e1], ?_, e3⟩
      intro ch hch
      rcases List.mem_cons.mp hch with h | h
      · subst h; exact hc
      · exact e2 ch h
    · have h2 : (([] : Str), c :: cs) = (t, r) := by rw [← h]; simp [takeRun, hc]
      injection h2 with ha hb
      subst ha; subst hb
      refine ⟨rfl, by simp, ?_⟩
      intro ch hch
      simp only [List.head?] at hch
      injection hch with h3
      subst h3
      simpa using hc

theorem takeRun_all_append (p : Char → Bool) (a s : Str)
    (ha : ∀ ch ∈ a, p ch = true) :
    takeRun p (a ++ s) = (a ++ (takeRun p s).1, (takeRun p s).2) := by
  induction a with
  | nil => simp
  | cons c cs ih =>
    have hc := ha c (List.mem_cons_self c cs)
    have ih2 := ih (fun ch h => ha ch (List.mem_cons_of_mem c h))
    simp [takeRun, hc, ih2]

theorem stripLit_eq : ∀ l cs r, stripLit l cs = some r → cs = l ++ r := by
  intro l
  induction l with
  | nil =>
    intro cs r h
    simp only [stripLit, Option.some.injEq] at h
    simp [h]
  | cons x xs ih =>
    intro cs r h
    cases cs with
    | nil => simp [stripLit] at h
    | cons c cs2 =>
      simp only [stripLit] at h
      split at h
      · next hcx =>
        subst hcx
        simp [ih cs2 r h]
      · exact absurd h (by simp)

theorem parseNum_sound (lo hi : Nat) (sep : Char) : ∀ cs d r,
    parseNum lo hi sep cs = some (d, r) →
    cs = d ++ sep :: r ∧ NumOK lo hi d := by
  intro cs d r h
  unfold parseNum at h
  rcases htr : takeRun Char.isDigit cs with ⟨t, rest⟩
  rw [htr] at h
  cases rest with
  | nil => simp at h
  | cons c r2 =>
    simp only [] at h
    split at h
    · next hcond =>
      obtain ⟨hsep, hlo, hhi⟩ := hcond
      simp only [Option.some.injEq, Prod.mk.injEq] at h
      obtain ⟨h1, h2⟩ := h
      obtain ⟨e1, e2, _⟩ := takeRun_sound Char.isDigit cs t (c :: r2) htr
      constructor
      · rw [← h1, ← h2, ← hsep]
        exact e1
      · rw [← h1]
        exact ⟨e2, hlo, hhi⟩
    · exact absurd h (by simp)

theorem parseNum_append (lo hi : Nat) (sep : Char) (d r : Str)
    (hd : NumOK lo hi d) (hsep : sep.isDigit = false) :
    parseNum lo hi sep (d ++ sep :: r) = some (d, r) := by
  unfold parseNum
  rw [takeRun_append_of Char.isDigit d (sep :: r) hd.1
        (fun ch h => by
          simp only [List.head?, Option.some.injEq] at h
          subst h
          exact hsep)]
  simp [hd.2.1, hd.2.2]

theorem str_qtoken_split : str "/?token=" = '/' :: str "?token=" := rfl

theorem parseUrlCore_sound : ∀ cs u rr, parseUrlCore cs = some (u, rr) →
    cs = render u ++ rr ∧ WellFormed u := by
  intro cs u rr h
  unfold parseUrlCore at h
  split at h
  · exact absurd h (by simp)
  next r0 h0 =>
  split at h
  · exact absurd h (by simp)
  next a r1 h1 =>
  split at h
  · exact absurd h (by simp)
  next b r2 h2 =>
  split at h
  · exact absurd h (by simp)
  next c r3 h3 =>
  split at h
  · exact absurd h (by simp)
  next d r4 h4 =>
  split at h
  · exact absurd h (by simp)
  next pt r5 h5 =>
  split at h
  · exact absurd h (by simp)
  next r6 h6 =>
  split at h
  next t r7 htk =>
  split at h
  · exact absurd h (by simp)
  next ht =>
  simp only [Option.some.injEq, Prod.mk.injEq] at h
  obtain ⟨hu, hr⟩ := h
  subst hu; subst hr
  obtain ⟨e0⟩ := And.intro (stripLit_eq _ cs r0 h0) True.intro
  obtain ⟨e1, n1⟩ := parseNum_sound 1 3 '.' r0 a r1 h1
  obtain ⟨e2, n2⟩ := parseNum_sound 1 3 '.' r1 b r2 h2
  obtain ⟨e3, n3⟩ := parseNum_sound 1 3 '.' r2 c r3 h3
  obtain ⟨e4, n4⟩ := parseNum_sound 1 3 ':' r3 d r4 h4
  obtain ⟨e5, n5⟩ := parseNum_sound 2 4 '/' r4 pt r5 h5
  have e6 := stripLit_eq _ r5 r6 h6
  obtain ⟨e7, w7, _⟩ := takeRun_sound isWordChar r6 t r7 htk
  constructor
  · rw [e0, e1, e2, e3, e4, e5, e6, e7]
    simp [render, dotted, str_qtoken_split, List.append_assoc]
  · exact ⟨n1, n2, n3, n4, n5, ht, w7⟩

theorem parseUrlCore_append (u : UrlParts) (t : Str) (hu : WellFormed u) :
    parseUrlCore (render u ++ t) =
      some (⟨u.q1, u.q2, u.q3, u.q4, u.port, u.token ++ (takeRun isWordChar t).1⟩,
            (takeRun isWordChar t).2) := by
  obtain ⟨h1, h2, h3, h4, h5, h6, h7⟩ := hu
  have hshape : render u ++ t =
      str "http://" ++ (u.q1 ++ '.' :: (u.q2 ++ '.' :: (u.q3 ++ '.' :: (u.q4 ++ ':' ::
        (u.port ++ '/' :: (str "?token=" ++ (u.token ++ t))))))) := by
    simp [render, dotted, str_qtoken_split, List.append_assoc]
  have s0 : stripLit (str "http://")
      (str "http://" ++ (u.q1 ++ '.' :: (u.q2 ++ '.' :: (u.q3 ++ '.' :: (u.q4 ++ ':' ::
        (u.port ++ '/' :: (str "?token=" ++ (u.token ++ t)))))))) =
      some (u.q1 ++ '.' :: (u.q2 ++ '.' :: (u.q3 ++ '.' :: (u.q4 ++ ':' ::
        (u.port ++ '/' :: (str "?token=" ++ (u.token ++ t))))))) :=
    stripLit_self_append _ _
  have s1 := parseNum_append 1 3 '.' u.q1
    (u.q2 ++ '.' :: (u.q3 ++ '.' :: (u.q4 ++ ':' ::
      (u.port ++ '/' :: (str "?token=" ++ (u.token ++ t)))))) h1 (by decide)
  have s2 := parseNum_append 1 3 '.' u.q2
    (u.q3 ++ '.' :: (u.q4 ++ ':' :: (u.port ++ '/' :: (str "?token=" ++ (u.token ++ t)))))
    h2 (by decide)
  have s3 := parseNum_append 1 3 '.' u.q3
    (u.q4 ++ ':' :: (u.port ++ '/' :: (str "?token=" ++ (u.token ++ t)))) h3 (by decide)
  have s4 := parseNum_append 1 3 ':' u.q4
    (u.port ++ '/' :: (str "?token=" ++ (u.token ++ t))) h4 (by decide)
  have s5 := parseNum_append 2 4 '/' u.port (str "?token=" ++ (u.token ++ t)) h5 (by decide)
  have s6 : stripLit (str "?token=") (str "?token=" ++ (u.token ++ t)) =
      some (u.token ++ t) := stripLit_self_append _ _
  have s7 := takeRun_all_append isWordChar u.token t h7
  rw [hshape]
  simp only [parseUrlCore, s0, s1, s2, s3, s4, s5, s6, s7]
  simp [h6]

theorem parseUrlCore_render (u : UrlParts) (hu : WellFormed u) :
    parseUrlCore (render u) = some (u, []) := by
  have h := parseUrlCore_append u [] hu
  simpa [takeRun] using h

theorem all_ne_append (P : Char → Prop) (a b : Str)
    (ha : ∀ ch ∈ a, P ch) (hb : ∀ ch ∈ b, P ch) : ∀ ch ∈ a ++ b, P ch := by
  intro ch h
  rcases List.mem_append.mp h with h | h
  · exact ha ch h
  · exact hb ch h

theorem all_ne_cons (P : Char → Prop) (c : Char) (b : Str)
    (hc : P c) (hb : ∀ ch ∈ b, P ch) : ∀ ch ∈ c :: b, P ch := by
  intro ch h
  rcases List.mem_cons.mp h with h | h
  · exact h ▸ hc
  · exact hb ch h

theorem render_noNl (u : UrlParts) (hu : WellFormed u) :
    ∀ ch ∈ render u, ch ≠ '\n' := by
  obtain ⟨h1, h2, h3, h4, h5, h6, h7⟩ := hu
  have hdd : ∀ (lo hi : Nat) (d : Str), NumOK lo hi d → ∀ ch ∈ d, ch ≠ '\n' := by
    intro lo hi d hn ch hch he
    subst he
    exact absurd (hn.1 _ hch) (by decide)
  have hw : ∀ ch ∈ u.token, ch ≠ '\n' := by
    intro ch hch he
    subst he
    exact absurd (h7 _ hch) (by decide)
  have hsh : render u = str "http://" ++ (u.q1 ++ '.' :: (u.q2 ++ '.' ::
      (u.q3 ++ '.' :: (u.q4 ++ ':' :: (u.port ++ '/' ::
        (str "?token=" ++ u.token)))))) := by
    simp [render, dotted, str_qtoken_split, List.append_assoc]
  rw [hsh]
  refine all_ne_append _ _ _ (by decide) ?_
  refine all_ne_append _ _ _ (hdd 1 3 _ h1) ?_
  refine all_ne_cons _ _ _ (by decide) ?_
  refine all_ne_append _ _ _ (hdd 1 3 _ h2) ?_
  refine all_ne_cons _ _ _ (by decide) ?_
  refine all_ne_append _ _ _ (hdd 1 3 _ h3) ?_
  refine all_ne_cons _ _ _ (by decide) ?_
  refine all_ne_append _ _ _ (hdd 1 3 _ h4) ?_
  refine all_ne_cons _ _ _ (by decide) ?_
  refine all_ne_append _ _ _ (hdd 2 4 _ h5) ?_
  refine all_ne_cons _ _ _ (by decide) ?_
  exact all_ne_append _ _ _ (by decide) hw

theorem lastMatch_sound : ∀ cs u, lastMatch cs = some u →
    ∃ a s rr, cs = a ++ s ∧ parseUrlCore s = some (u, rr) := by
  intro cs
  induction cs with
  | nil => intro u h; simp [lastMatch] at h
  | cons c cs ih =>
    intro u h
    rcases hlm : lastMatch cs with _ | v
    · simp only [lastMatch, hlm] at h
      rcases hpc : parseUrlCore (c :: cs) with _ | ⟨v, rr⟩
      · rw [hpc] at h; simp at h
      · rw [hpc] at h
        simp at h
        refine ⟨[], c :: cs, rr, by simp, ?_⟩
        rw [hpc, h]
    · simp only [lastMatch, hlm] at h
      injection h with h2
      subst h2
      obtain ⟨a, s, rr, e, hp⟩ := ih v hlm
      exact ⟨c :: a, s, rr, by simp [e], hp⟩

theorem lastMatch_isSome_cons (c : Char) (cs : Str) (h : (lastMatch cs).isSome) :
    (lastMatch (c :: cs)).isSome := by
  rcases hlm : lastMatch cs with _ | v
  · rw [hlm] at h; simp at h
  · simp [lastMatch, hlm]

theorem lastMatch_isSome_of : ∀ a s, (parseUrlCore s).isSome →
    (lastMatch (a ++ s)).isSome := by
  intro a
  induction a with
  | nil =>
    intro s hp
    rw [List.nil_append]
    cases s with
    | nil =>
      have hnone : parseUrlCore ([] : Str) = none := rfl
      rw [hnone] at hp
      simp at hp
    | cons c cs =>
      rcases hlm : lastMatch cs with _ | v
      · simp only [lastMatch, hlm]
        rcases hpc : parseUrlCore (c :: cs) with _ | x
        · rw [hpc] at hp; simp at hp
        · simp [hpc]
      · simp [lastMatch, hlm]
  | cons c a ih =>
    intro s hp
    exact lastMatch_isSome_cons c (a ++ s) (ih s hp)

theorem splitNl_ne_nil : ∀ cs, splitNl cs ≠ [] := by
  intro cs
  induction cs with
  | nil => simp [splitNl]
  | cons c cs ih =>
    rcases h : splitNl cs with _ | ⟨l, ls⟩
    · exact absurd h ih
    · simp only [splitNl, h]
      split <;> simp

theorem joinNl_single (a : Str) : joinNl [a] = a := by simp [joinNl]

theorem joinNl_cons2 (a b : Str) (ls : List Str) :
    joinNl (a :: b :: ls) = a ++ '\n' :: joinNl (b :: ls) := rfl

theorem joinNl_splitNl : ∀ cs, joinNl (splitNl cs) = cs := by
  intro cs
  induction cs with
  | nil => rfl
  | cons c cs ih =>
    rcases h : splitNl cs with _ | ⟨l, ls⟩
    · exact absurd h (splitNl_ne_nil cs)
    · rw [h] at ih
      by_cases hc : c = '\n'
      · subst hc
        have heq : splitNl ('\n' :: cs) = [] :: l :: ls := by simp [splitNl, h]
        rw [heq, joinNl_cons2, ih]
        rfl
      · have heq : splitNl (c :: cs) = (c :: l) :: ls := by simp [splitNl, h, hc]
        cases ls with
        | nil =>
          rw [heq, joinNl_single]
          rw [joinNl_single] at ih
          rw [ih]
        | cons l2 ls2 =>
          rw [heq, joinNl_cons2]
          rw [joinNl_cons2] at ih
          rw [List.cons_append, ih]

theorem mem_joinNl : ∀ (ls : List Str) (l : Str), l ∈ ls →
    ∃ x y, joinNl ls = x ++ (l ++ y) := by
  intro ls
  induction ls with
  | nil => intro l h; simp at h
  | cons a ls ih =>
    intro l h
    rcases List.mem_cons.mp h with h | h
    · subst h
      cases ls with
      | nil => exact ⟨[], [], by rw [joinNl_single]; simp⟩
      | cons b ls2 =>
        exact ⟨[], '\n' :: joinNl (b :: ls2), by rw [joinNl_cons2]; simp⟩
    · obtain ⟨x, y, e⟩ := ih l h
      cases ls with
      | nil => simp at h
      | cons b ls2 =>
        refine ⟨a ++ '\n' :: x, y, ?_⟩
        rw [joinNl_cons2, e]
        simp [List.append_assoc]

theorem mem_splitNl_decomp (cs l : Str) (h : l ∈ splitNl cs) :
    ∃ x y, cs = x ++ (l ++ y) := by
  obtain ⟨x, y, e⟩ := mem_joinNl (splitNl cs) l h
  exact ⟨x, y, by rw [← joinNl_splitNl cs, e]⟩

theorem splitNl_append_noNl : ∀ a r, (∀ ch ∈ a, ch ≠ '\n') →
    ∃ l ls, splitNl r = l :: ls ∧ splitNl (a ++ r) = (a ++ l) :: ls := by
  intro a
  induction a with
  | nil =>
    intro r _
    rcases h : splitNl r with _ | ⟨l, ls⟩
    · exact absurd h (splitNl_ne_nil r)
    · exact ⟨l, ls, rfl, by simp [h]⟩
  | cons c a ih =>
    intro r ha
    obtain ⟨l, ls, h1, h2⟩ := ih r (fun ch h => ha ch (List.mem_cons_of_mem c h))
    have hc : c ≠ '\n' := ha c (List.mem_cons_self c a)
    refine ⟨l, ls, h1, ?_⟩
    simp [splitNl, h2, hc]

theorem firstLineMatch_sound : ∀ ls u, firstLineMatch ls = some u →
    ∃ l ∈ ls, lastMatch l = some u := by
  intro ls
  induction ls with
  | nil => intro u h; simp [firstLineMatch] at h
  | cons a ls ih =>
    intro u h
    rcases hlm : lastMatch a with _ | v
    · simp only [firstLineMatch, hlm] at h
      obtain ⟨l, hl, h2⟩ := ih u h
      exact ⟨l, List.mem_cons_of_mem _ hl, h2⟩
    · simp only [firstLineMatch, hlm] at h
      injection h with h2
      subst h2
      exact ⟨a, List.mem_cons_self _ _, hlm⟩

theorem firstLineMatch_isSome : ∀ ls : List Str,
    (∃ l ∈ ls, (lastMatch l).isSome) → (firstLineMatch ls).isSome := by
  intro ls
  induction ls with
  | nil => intro h; obtain ⟨l, hl, _⟩ := h; simp at hl
  | cons a ls ih =>
    intro h
    rcases hlm : lastMatch a with _ | v
    · simp only [firstLineMatch, hlm]
      apply ih
      obtain ⟨l, hl, hs⟩ := h
      rcases List.mem_cons.mp hl with he | hm
      · subst he
        rw [hlm] at hs
        simp at hs
      · exact ⟨l, hm, hs⟩
    · simp [firstLineMatch, hlm]

theorem line_with_url (u : UrlParts) (hu : WellFormed u) :
    ∀ pre post, ∃ l, l ∈ splitNl (pre ++ (render u ++ post)) ∧ (lastMatch l).isSome := by
  intro pre
  induction pre with
  | nil =>
    intro post
    obtain ⟨l, ls, hsp, hrw⟩ := splitNl_append_noNl (render u) post (render_noNl u hu)
    refine ⟨render u ++ l, ?_, ?_⟩
    · rw [List.nil_append, hrw]
      exact List.mem_cons_self _ _
    · have hps : (parseUrlCore (render u ++ l)).isSome := by
        rw [parseUrlCore_append u l hu]
        rfl
      have := lastMatch_isSome_of [] (render u ++ l) hps
      simpa using this
  | cons c pre ih =>
    intro post
    obtain ⟨l, hl, hsome⟩ := ih post
    rcases hrest : splitNl (pre ++ (render u ++ post)) with _ | ⟨l0, ls0⟩
    · exact absurd hrest (splitNl_ne_nil _)
    · by_cases hc : c = '\n'
      · subst hc
        have heq : splitNl (('\n' :: pre) ++ (render u ++ post)) = [] :: l0 :: ls0 := by
          simp [splitNl, hrest]
        refine ⟨l, ?_, hsome⟩
        rw [heq]
        rw [hrest] at hl
        exact List.mem_cons_of_mem _ hl
      · have heq : splitNl ((c :: pre) ++ (render u ++ post)) = (c :: l0) :: ls0 := by
          simp [splitNl, hrest, hc]
        rw [hrest] at hl
        rcases List.mem_cons.mp hl with he | hm
        · subst he
          refine ⟨c :: l, ?_, lastMatch_isSome_cons c l hsome⟩
          rw [heq]
          exact List.mem_cons_self _ _
        · refine ⟨l, ?_, hsome⟩
          rw [heq]
          exact List.mem_cons_of_mem _ hm

theorem searchUrl_sound (outs : Str) (u : UrlParts) (h : searchUrl outs = some u) :
    WellFormed u ∧ ∃ x y, outs = x ++ (render u ++ y) := by
  obtain ⟨l, hl, hlm⟩ := firstLineMatch_sound (splitNl outs) u h
  obtain ⟨a, s, rr, he, hp⟩ := lastMatch_sound l u hlm
  obtain ⟨hrs, hwf⟩ := parseUrlCore_sound s u rr hp
  obtain ⟨x, y, hxy⟩ := mem_splitNl_decomp outs l hl
  refine ⟨hwf, x ++ a, rr ++ y, ?_⟩
  rw [hxy, he, hrs]
  simp [List.append_assoc]

theorem searchUrl_isSome (outs : Str) (u : UrlParts) (hu : WellFormed u)
    (x y : Str) (hxy : outs = x ++ (render u ++ y)) : (searchUrl outs).isSome := by
  apply firstLineMatch_isSome
  rw [hxy]
  exact line_with_url u hu x y

theorem containsSub_of_decomp (n : Str) : ∀ x y, containsSub n (x ++ (n ++ y)) = true := by
  intro x
  induction x with
  | nil =>
    intro y
    rw [List.nil_append]
    rcases hny : n ++ y with _ | ⟨c, h2⟩
    · have hn : n = [] := (List.append_eq_nil.mp hny).1
      subst hn
      rfl
    · have hs : (stripLit n (n ++ y)).isSome = true := by
        rw [stripLit_self_append]
        rfl
      rw [hny] at hs
      have hceq : containsSub n (c :: h2) =
          ((stripLit n (c :: h2)).isSome || containsSub n h2) := rfl
      rw [hceq, hs]
      simp
  | cons c x ih =>
    intro y
    rw [List.cons_append, containsSub, ih y]
    simp

theorem render_token_decomp (u : UrlParts) :
    ∃ A B, render u = A ++ (str "token" ++ B) := by
  refine ⟨str "http://" ++ dotted u ++ ':' :: u.port ++ ['/', '?'], '=' :: u.token, ?_⟩
  have hsplit : str "/?token=" = ['/', '?'] ++ (str "token" ++ ['=']) := rfl
  simp [render, hsplit, List.append_assoc]

theorem token_in_text (u : UrlParts) (x y : Str) :
    containsSub (str "token") (x ++ (render u ++ y)) = true := by
  obtain ⟨A, B, e⟩ := render_token_decomp u
  have hre : x ++ (render u ++ y) = (x ++ A) ++ (str "token" ++ (B ++ y)) := by
    rw [e]
    simp [List.append_assoc]
  rw [hre]
  exact containsSub_of_decomp _ _ _

theorem scan_found (outs : Str) (u : UrlParts) (hu : WellFormed u)
    (x y : Str) (hxy : outs = x ++ (render u ++ y)) :
    ∃ u2, WellFormed u2 ∧ scanJupyterOut outs = (render u2, true) ∧
      ∃ x2 y2, outs = x2 ++ (render u2 ++ y2) := by
  have htok : containsSub (str "token") outs = true := by
    rw [hxy]
    exact token_in_text u x y
  have hsome : (searchUrl outs).isSome := searchUrl_isSome outs u hu x y hxy
  rcases hs : searchUrl outs with _ | u2
  · rw [hs] at hsome
    simp at hsome
  · obtain ⟨hwf, x2, y2, hdec⟩ := searchUrl_sound outs u2 hs
    exact ⟨u2, hwf, by simp [scanJupyterOut, htok, hs], x2, y2, hdec⟩

theorem scan_nonempty (outs : Str) (h : (scanJupyterOut outs).1 ≠ []) :
    ∃ u2, WellFormed u2 ∧ (scanJupyterOut outs).1 = render u2 ∧
      ∃ x y, outs = x ++ (render u2 ++ y) := by
  by_cases htok : containsSub (str "token") outs = false
  · simp [scanJupyterOut, htok] at h
  · rcases hs : searchUrl outs with _ | u2
    · simp [scanJupyterOut, htok, hs] at h
    · obtain ⟨hwf, x, y, hdec⟩ := searchUrl_sound outs u2 hs
      exact ⟨u2, hwf, by simp [scanJupyterOut, htok, hs], x, y, hdec⟩

/-- Claim C2: the connection-info scanner short-circuits (no regex search
is attempted) and reports not ready when the text lacks the token
substring; when the text contains a well-formed URL occurrence the
scanner returns a complete well-formed URL occurring verbatim
(byte-for-byte) in the text, whose anchored re-match in main extracts
all three fields host, port and token; and every non-empty result
decomposes into all three fields, never a partial record. -/
theorem connection_parse_spec (outs : Str) :
    (containsSub (str "token") outs = false → scanJupyterOut outs = ([], false)) ∧
    (∀ u x y, WellFormed u → outs = x ++ (render u ++ y) →
      ∃ u2, WellFormed u2 ∧ (scanJupyterOut outs).1 = render u2 ∧
        (∃ x2 y2, outs = x2 ++ (render u2 ++ y2)) ∧
        parseUrlExact (render u2) = some (dotted u2, u2.port, u2.token)) ∧
    ((scanJupyterOut outs).1 ≠ [] →
      ∃ u2, WellFormed u2 ∧ (scanJupyterOut outs).1 = render u2 ∧
        parseUrlExact (render u2) = some (dotted u2, u2.port, u2.token)) := by
  refine ⟨?_, ?_, ?_⟩
  · intro h
    simp [scanJupyterOut, h]
  · intro u x y hu hxy
    obtain ⟨u2, hwf, hscan, x2, y2, hdec⟩ := scan_found outs u hu x y hxy
    refine ⟨u2, hwf, by rw [hscan], ⟨x2, y2, hdec⟩, ?_⟩
    simp [parseUrlExact, parseUrlCore_render u2 hwf]
  · intro h
    obtain ⟨u2, hwf, hscan, _⟩ := scan_nonempty outs h
    exact ⟨u2, hwf, hscan, by simp [parseUrlExact, parseUrlCore_render u2 hwf]⟩

/-- Claim C2, witness: a text without the token substring short-circuits
to not-ready with no regex attempted; the specification scenario text
containing the URL yields a complete three-field extraction. -/
theorem connection_parse_spec_witness :
    scanJupyterOut (str "error log no url yet") = ([], false) ∧
    (∃ u2, WellFormed u2 ∧
      (scanJupyterOut (str "serving at http://10.0.0.5:9700/?token=abc123 done")).1 =
        render u2 ∧
      (∃ x2 y2, str "serving at http://10.0.0.5:9700/?token=abc123 done" =
        x2 ++ (render u2 ++ y2)) ∧
      parseUrlExact (render u2) = some (dotted u2, u2.port, u2.token)) := by
  constructor
  · exact (connection_parse_spec (str "error log no url yet")).1 (by decide)
  · exact (connection_parse_spec
      (str "serving at http://10.0.0.5:9700/?token=abc123 done")).2.1
      ⟨str "10", str "0", str "0", str "5", str "9700", str "abc123"⟩
      (str "serving at ") (str " done") (by decide) rfl

/-- Claim C10: every non-empty string returned by get_jupyter_url is
exactly a URL of the anchored grammar, so the anchored re-match of main
succeeds on it and extracts the three groups; the branch of main in
which ip, port and token stay unbound is unreachable for values
produced by get_jupyter_url. -/
theorem jupyter_url_anchored_match (env : Env) (w : World) (jid url : Str)
    (h : get_jupyter_url env w jid = .ok url) (hne : url ≠ []) :
    ∃ u, url = render u ∧ parseUrlExact url = some (dotted u, u.port, u.token) := by
  unfold get_jupyter_url at h
  rcases hr : (run env w [str "cat", error_file jid] false).result with e | ⟨ret, outs, err⟩
  · rw [hr] at h
    simp at h
  · rw [hr] at h
    simp only [Except.ok.injEq] at h
    obtain ⟨u2, hwf, hscan, _⟩ := scan_nonempty outs (by rw [h]; exact hne)
    rw [← h]
    refine ⟨u2, hscan, ?_⟩
    rw [hscan]
    simp [parseUrlExact, parseUrlCore_render u2 hwf]

/-- Claim C10, witness: a concrete execution in which the error log is
exactly the URL, so get_jupyter_url returns it and the anchored match
extracts host 10.0.0.5, port 9700 and token abc123. -/
theorem jupyter_url_anchored_match_witness :
    ∃ u, str "http://10.0.0.5:9700/?token=abc123" = render u ∧
      parseUrlExact (str "http://10.0.0.5:9700/?token=abc123") =
        some (dotted u, u.port, u.token) := by
  exact jupyter_url_anchored_match [(str "CLUSTER", str "hpc1")]
    (fun _ => ⟨0, str "http://10.0.0.5:9700/?token=abc123", []⟩) (str "77")
    (str "http://10.0.0.5:9700/?token=abc123") rfl (by decide)

/-! Polling-loop lemmas. -/

theorem get_ok_of_check (env : Env) (w : World) (jid : Str) (b : Bool)
    (h : check_jobfailure env w jid = .ok b) :
    ∃ u, get_jupyter_url env w jid = .ok u := by
  rcases hc : lookupEnv env (str "CLUSTER") with _ | c
  · exfalso
    have herr : check_jobfailure env w jid = .error (.missingVar (str "CLUSTER")) := by
      unfold check_jobfailure run get_var
      rw [hc]
    rw [herr] at h
    exact Except.noConfusion h
  · have hrun := run_never_raises env w [str "cat", error_file jid] false c hc
    refine ⟨(scanJupyterOut
      (strip (w (str "ssh" :: c :: [str "cat", error_file jid])).stdout)).1, ?_⟩
    simp [get_jupyter_url, hrun.1]

theorem pollLoop_fail_step (env : Env) (W : Nat → World) (jid : Str) (k fuel : Nat)
    (hfail : check_jobfailure env (W k) jid = .ok true) :
    pollLoop env W jid k (fuel + 1) = (.failed, [.readiness k, .failure k]) := by
  obtain ⟨u, hget⟩ := get_ok_of_check env (W k) jid true hfail
  simp [pollLoop, hget, hfail]

theorem pollLoop_ready_step (env : Env) (W : Nat → World) (jid : Str) (k fuel : Nat)
    (u : Str) (hget : get_jupyter_url env (W k) jid = .ok u) (hu : u ≠ [])
    (hnf : check_jobfailure env (W k) jid = .ok false) :
    pollLoop env W jid k (fuel + 1) = (.ready u, [.readiness k, .failure k]) := by
  simp [pollLoop, hget, hnf, hu]

theorem pollLoop_skip (env : Env) (W : Nat → World) (jid : Str) : ∀ m k fuel,
    (∀ j, j < m → get_jupyter_url env (W (k + j)) jid = .ok [] ∧
      check_jobfailure env (W (k + j)) jid = .ok false) →
    pollLoop env W jid k (m + fuel) =
      ((pollLoop env W jid (k + m) fuel).1,
        stepEvents k m ++ (pollLoop env W jid (k + m) fuel).2) := by
  intro m
  induction m with
  | zero =>
    intro k fuel _
    simp [stepEvents]
  | succ m ih =>
    intro k fuel h
    have h0 := h 0 (Nat.succ_pos m)
    rw [Nat.add_zero] at h0
    have ih2 := ih (k + 1) fuel (fun j hj => by
      have h2 := h (j + 1) (Nat.succ_lt_succ hj)
      have e : k + (j + 1) = k + 1 + j := by omega
      rwa [e] at h2)
    have harith : k + 1 + m = k + (m + 1) := by omega
    rw [harith] at ih2
    have hs : m + 1 + fuel = (m + fuel) + 1 := by omega
    rw [hs]
    simp only [pollLoop, h0.1, h0.2]
    rw [ih2]
    simp [stepEvents]

/-- Claim C1: within one polling iteration the failure check is
evaluated after the readiness check (the event list of the iteration is
readiness then failure), and whenever the accounting stdout contains
FAILED the iteration ends the loop as failed with exit status 1,
regardless of what the readiness check of the same iteration produced
(in particular even when it parsed a valid token URL). -/
theorem poll_failure_wins (env : Env) (W : Nat → World) (jid c : Str) (k fuel : Nat)
    (hc : lookupEnv env (str "CLUSTER") = some c)
    (hFAILED : containsSub (str "FAILED")
      (strip ((W k) (str "ssh" :: c :: [str "sacct", str "-j", jid, str "-n"])).stdout) =
        true) :
    pollLoop env W jid k (fuel + 1) = (.failed, [.readiness k, .failure k]) ∧
    pollExitCode (pollLoop env W jid k (fuel + 1)).1 = some 1 := by
  have hcheck : check_jobfailure env (W k) jid = .ok true := by
    have hrun := run_never_raises env (W k) [str "sacct", str "-j", jid, str "-n"] false c hc
    simp [check_jobfailure, hrun.1, hFAILED]
  have h := pollLoop_fail_step env W jid k fuel hcheck
  refine ⟨h, ?_⟩
  rw [h]
  rfl

/-- Claim C1, witness: an iteration whose error log contains a valid
token URL while the accounting output reports FAILED ends as failed
(failure wins over the freshly parsed URL). -/
theorem poll_failure_wins_witness :
    pollLoop [(str "CLUSTER", str "hpc1")]
      (fun _ cmd =>
        if cmd[2]? = some (str "sacct")
        then ⟨0, str "12 batch FAILED node01", []⟩
        else ⟨0, str "serving at http://10.0.0.5:9700/?token=abc123", []⟩)
      (str "12") 0 (0 + 1) = (.failed, [.readiness 0, .failure 0]) := by
  exact (poll_failure_wins [(str "CLUSTER", str "hpc1")]
    (fun _ cmd =>
      if cmd[2]? = some (str "sacct")
      then ⟨0, str "12 batch FAILED node01", []⟩
      else ⟨0, str "serving at http://10.0.0.5:9700/?token=abc123", []⟩)
    (str "12") (str "hpc1") 0 0 rfl (by decide)).1

/-- Claim C5: if iteration m is the first whose error log yields a valid
URL and no iteration up to and including m reports a failure, the
polling loop terminates ready with that URL at iteration m, for any
amount of extra fuel; earlier iterations may have been unreadable (an
unreadable log merely yields the not-ready empty string, it is not an
error), so prior readability is not required. -/
theorem poll_ready_first_iteration (env : Env) (W : Nat → World) (jid u : Str)
    (m fuel : Nat)
    (hnt : ∀ j, j < m → get_jupyter_url env (W j) jid = .ok [])
    (hnf : ∀ j, j ≤ m → check_jobfailure env (W j) jid = .ok false)
    (hm : get_jupyter_url env (W m) jid = .ok u) (hu : u ≠ []) :
    pollLoop env W jid 0 (m + 1 + fuel) =
      (.ready u, stepEvents 0 m ++ [.readiness m, .failure m]) := by
  have hskip := pollLoop_skip env W jid m 0 (fuel + 1) (fun j hj => by
    refine ⟨?_, ?_⟩
    · have := hnt j hj
      rwa [Nat.zero_add]
    · have := hnf j (le_of_lt hj)
      rwa [Nat.zero_add])
  have harith : m + 1 + fuel = m + (fuel + 1) := by omega
  rw [harith, hskip]
  simp only [Nat.zero_add]
  have hstep := pollLoop_ready_step env W jid m fuel u hm hu (hnf m le_rfl)
  rw [hstep]

/-- Claim C5, witness: the error log is unreadable at iteration 0 (cat
exits 1 with empty stdout) and contains the URL at iteration 1; the
loop ends ready with that URL after exactly the two iterations. -/
theorem poll_ready_first_iteration_witness :
    pollLoop [(str "CLUSTER", str "hpc1")]
      (fun n cmd =>
        if cmd[2]? = some (str "sacct") then ⟨0, str "PENDING", []⟩
        else if n = 0 then ⟨1, [], str "cat: no such file"⟩
        else ⟨0, str "serving at http://10.0.0.5:9700/?token=abc123", []⟩)
      (str "12") 0 (1 + 1 + 0) =
      (.ready (str "http://10.0.0.5:9700/?token=abc123"),
        stepEvents 0 1 ++ [.readiness 1, .failure 1]) := by
  exact poll_ready_first_iteration [(str "CLUSTER", str "hpc1")]
    (fun n cmd =>
      if cmd[2]? = some (str "sacct") then ⟨0, str "PENDING", []⟩
      else if n = 0 then ⟨1, [], str "cat: no such file"⟩
      else ⟨0, str "serving at http://10.0.0.5:9700/?token=abc123", []⟩)
    (str "12") (str "http://10.0.0.5:9700/?token=abc123") 1 0
    (by intro j hj; interval_cases j; rfl)
    (by intro j hj; interval_cases j <;> rfl)
    rfl (by decide)

/-- Claim C8: the loop reaches exactly one terminal verdict, at the
first terminal iteration m, and the scheduler checks performed are
exactly those of iterations 0 through m in order, however much extra
fuel remains: once the loop is terminal no further readiness check of
the error log or accounting query happens (the node query main issues
afterwards is neither). -/
theorem poll_terminal_unique (env : Env) (W : Nat → World) (jid um : Str)
    (m fuel : Nat)
    (hnt : ∀ j, j < m → get_jupyter_url env (W j) jid = .ok [] ∧
      check_jobfailure env (W j) jid = .ok false)
    (hm : get_jupyter_url env (W m) jid = .ok um)
    (hterm : check_jobfailure env (W m) jid = .ok true ∨
      (check_jobfailure env (W m) jid = .ok false ∧ um ≠ [])) :
    (pollLoop env W jid 0 (m + 1 + fuel)).2 =
      stepEvents 0 m ++ [.readiness m, .failure m] ∧
    ((pollLoop env W jid 0 (m + 1 + fuel)).1 = .failed ∨
      (pollLoop env W jid 0 (m + 1 + fuel)).1 = .ready um) := by
  have hskip := pollLoop_skip env W jid m 0 (fuel + 1) (fun j hj => by
    have h2 := hnt j hj
    exact ⟨by have := h2.1; rwa [Nat.zero_add], by have := h2.2; rwa [Nat.zero_add]⟩)
  have harith : m + 1 + fuel = m + (fuel + 1) := by omega
  rw [harith, hskip]
  simp only [Nat.zero_add]
  rcases hterm with hf | ⟨hnf2, hne⟩
  · have hstep := pollLoop_fail_step env W jid m fuel hf
    rw [hstep]
    exact ⟨rfl, Or.inl rfl⟩
  · have hstep := pollLoop_ready_step env W jid m fuel um hm hne hnf2
    rw [hstep]
    exact ⟨rfl, Or.inr rfl⟩

/-- Claim C8, witness: with both a URL in the log and FAILED in the
accounting output at iteration 0, the loop ends at iteration 0 with the
single terminal verdict failed and exactly one pair of checks. -/
theorem poll_terminal_unique_witness :
    (pollLoop [(str "CLUSTER", str "hpc1")]
      (fun _ cmd =>
        if cmd[2]? = some (str "sacct")
        then ⟨0, str "12 batch FAILED node01", []⟩
        else ⟨0, str "serving at http://10.0.0.5:9700/?token=abc123", []⟩)
      (str "12") 0 (0 + 1 + 0)).2 = stepEvents 0 0 ++ [.readiness 0, .failure 0] ∧
    ((pollLoop [(str "CLUSTER", str "hpc1")]
      (fun _ cmd =>
        if cmd[2]? = some (str "sacct")
        then ⟨0, str "12 batch FAILED node01", []⟩
        else ⟨0, str "serving at http://10.0.0.5:9700/?token=abc123", []⟩)
      (str "12") 0 (0 + 1 + 0)).1 = .failed ∨
     (pollLoop [(str "CLUSTER", str "hpc1")]
      (fun _ cmd =>
        if cmd[2]? = some (str "sacct")
        then ⟨0, str "12 batch FAILED node01", []⟩
        else ⟨0, str "serving at http://10.0.0.5:9700/?token=abc123", []⟩)
      (str "12") 0 (0 + 1 + 0)).1 =
        .ready (str "http://10.0.0.5:9700/?token=abc123")) := by
  exact poll_terminal_unique [(str "CLUSTER", str "hpc1")]
    (fun _ cmd =>
      if cmd[2]? = some (str "sacct")
      then ⟨0, str "12 batch FAILED node01", []⟩
      else ⟨0, str "serving at http://10.0.0.5:9700/?token=abc123", []⟩)
    (str "12") (str "http://10.0.0.5:9700/?token=abc123") 0 0
    (fun j hj => absurd hj (Nat.not_lt_zero j))
    rfl (Or.inl rfl)
